import Mathlib

/-!
Shallow embedding of the near-Earth-object project (`models.py`, `database.py`,
`write.py`) and proofs about it.

Conventions of the embedding:
* Python floats are modelled by `PyFloat`: either the not-a-number sentinel or
  an exact rational value.  The only float operations the program performs are
  order comparisons (in which NaN compares false both ways, as in Python) and
  the NaN test, both modelled explicitly.
* Python `datetime` objects are modelled by `PyDateTime` records; the input
  format carries no seconds, but the model keeps a `second` field because
  Python's `datetime` (and its default `str()` rendering) has one.
* A Python value that may be `None` is an `Option`.
* Python code that can raise is modelled in `Except String`, the string naming
  the exception class that CPython would raise at that point.
* Python `dict`s are insertion-ordered association lists; updating an existing
  key keeps its position, a new key is appended (exactly CPython's behaviour).
* The files `helpers.py` (with `cd_to_datetime` / `datetime_to_str`) are not
  part of the sources; those two functions are modelled from the spec and say
  so in their doc comments.
-/

namespace Neo

/-- A Python float as used by this program: the `float('nan')` sentinel or an
exact numeric value.  Comparisons against NaN are false, as in Python. -/
inductive PyFloat where
  | nan : PyFloat
  | val : ℚ → PyFloat
deriving DecidableEq

/-- Python's `math.isnan`. -/
def PyFloat.isNaN : PyFloat → Bool
  | .nan => true
  | .val _ => false

/-- Python's `<` on floats: false whenever either side is NaN. -/
def pyLt : PyFloat → PyFloat → Bool
  | .val a, .val b => decide (a < b)
  | _, _ => false

/-- Python's `>` on floats: false whenever either side is NaN. -/
def pyGt : PyFloat → PyFloat → Bool
  | .val a, .val b => decide (b < a)
  | _, _ => false

/-- A Python `datetime.date`, compared lexicographically. -/
structure PyDate where
  year : Nat
  month : Nat
  day : Nat
deriving DecidableEq

/-- Python's `<` on dates (lexicographic on year, month, day). -/
def dateLt (d e : PyDate) : Bool :=
  decide (d.year < e.year ∨ (d.year = e.year ∧
    (d.month < e.month ∨ (d.month = e.month ∧ d.day < e.day))))

/-- A Python `datetime.datetime` at second granularity (the program never
produces sub-second values; timestamps parsed from the input have `second = 0`). -/
structure PyDateTime where
  year : Nat
  month : Nat
  day : Nat
  hour : Nat
  minute : Nat
  second : Nat
deriving DecidableEq

/-- Python's `datetime.date()` component extraction. -/
def PyDateTime.date (t : PyDateTime) : PyDate :=
  ⟨t.year, t.month, t.day⟩

/-- Equality of `Except` values is decidable when it is for both components;
needed to evaluate the embedded fallible functions on concrete inputs. -/
instance exceptDecEq {ε α : Type} [DecidableEq ε] [DecidableEq α] :
    DecidableEq (Except ε α) := fun a b =>
  match a, b with
  | .ok x, .ok y =>
    if h : x = y then .isTrue (by rw [h])
    else .isFalse (by intro hc; cases hc; exact h rfl)
  | .error x, .error y =>
    if h : x = y then .isTrue (by rw [h])
    else .isFalse (by intro hc; cases hc; exact h rfl)
  | .ok _, .error _ => .isFalse (by intro hc; cases hc)
  | .error _, .ok _ => .isFalse (by intro hc; cases hc)

/-- Render a natural number zero-padded to at least two digits (`%02d`). -/
def pad2 (n : Nat) : String :=
  if n < 10 then "0" ++ Nat.repr n else Nat.repr n

/-- Render a natural number zero-padded to at least four digits (`%04d`, as
Python's `%Y`). -/
def pad4 (n : Nat) : String :=
  if n < 10 then "000" ++ Nat.repr n
  else if n < 100 then "00" ++ Nat.repr n
  else if n < 1000 then "0" ++ Nat.repr n
  else Nat.repr n

/-- Modelled from the spec: `helpers.datetime_to_str` (helpers.py is not under
the provided sources).  Output timestamps are formatted at the same precision
as the input format, "date and hour:minute, no seconds" — year-month-day
hour:minute, zero padded, never a seconds field. -/
def datetime_to_str (t : PyDateTime) : String :=
  pad4 t.year ++ "-" ++ pad2 t.month ++ "-" ++ pad2 t.day ++ " " ++
    pad2 t.hour ++ ":" ++ pad2 t.minute

/-- Python's default `str()` of a `datetime` whose microsecond field is zero:
`YYYY-MM-DD HH:MM:SS` — the seconds field is always present. -/
def pyDatetimeStr (t : PyDateTime) : String :=
  pad4 t.year ++ "-" ++ pad2 t.month ++ "-" ++ pad2 t.day ++ " " ++
    pad2 t.hour ++ ":" ++ pad2 t.minute ++ ":" ++ pad2 t.second

/-- Split a character list on a separator character. -/
def csplit (sep : Char) : List Char → List (List Char)
  | [] => [[]]
  | c :: rest =>
    let r := csplit sep rest
    if c = sep then [] :: r
    else match r with
      | [] => [[c]]
      | g :: gs => (c :: g) :: gs

/-- Value of a non-empty list of decimal digit characters. -/
def digitsToNat (cs : List Char) : Nat :=
  cs.foldl (fun n c => n * 10 + (c.toNat - '0'.toNat)) 0

/-- Parse a field of decimal digits, as `strptime` does for `%Y`/`%d`/`%H`/`%M`. -/
def parseDigits (cs : List Char) : Option Nat :=
  if cs.isEmpty then none
  else if cs.all Char.isDigit then some (digitsToNat cs) else none

/-- Month abbreviations recognised by `%b`. -/
def monthAbbrevs : List String :=
  ["Jan", "Feb", "Mar", "Apr", "May", "Jun",
   "Jul", "Aug", "Sep", "Oct", "Nov", "Dec"]

/-- Modelled from the spec: `helpers.cd_to_datetime` (helpers.py is not under
the provided sources).  Input timestamps are parsed from the fixed textual
format "date and hour:minute, no seconds" (e.g. `2020-Jan-01 12:30`), so the
parsed timestamp has second component zero; a string not of that shape raises
(`none` here). -/
def cd_to_datetime (s : String) : Option PyDateTime :=
  match csplit ' ' s.data with
  | [datePart, timePart] =>
    match csplit '-' datePart, csplit ':' timePart with
    | [ys, ms, ds], [hs, mins] =>
      match parseDigits ys, monthAbbrevs.findIdx? (fun m => m.data = ms),
            parseDigits ds, parseDigits hs, parseDigits mins with
      | some y, some mi, some d, some h, some mn =>
        if 1 ≤ d ∧ d ≤ 31 ∧ h < 24 ∧ mn < 60 then
          some ⟨y, mi + 1, d, h, mn, 0⟩
        else none
      | _, _, _, _, _ => none
    | _, _ => none
  | _ => none

/-- Python's `float()` applied to a string, for the string shapes this data set
can contain: surrounding whitespace, an optional sign, then either decimal
digits with an optional fractional part (at least one digit overall) or the
`nan` spelling in any letter case.  Anything else raises `ValueError` (`none`
here).  Exponent and infinity spellings do not occur in this project's data
and are not modelled. -/
def pyParseFloat (s : String) : Option PyFloat :=
  let cs := ((s.data.dropWhile Char.isWhitespace).reverse.dropWhile
    Char.isWhitespace).reverse
  let signed : Bool × List Char :=
    match cs with
    | '+' :: r => (false, r)
    | '-' :: r => (true, r)
    | r => (false, r)
  let neg := signed.1
  let body := signed.2
  if body.map Char.toLower = ['n', 'a', 'n'] then some .nan
  else
    let ip := body.takeWhile Char.isDigit
    let rest := body.drop ip.length
    let fp? : Option (List Char) :=
      match rest with
      | [] => if ip.isEmpty then none else some []
      | '.' :: fs =>
        if fs.all Char.isDigit && !(ip.isEmpty && fs.isEmpty) then some fs
        else none
      | _ => none
    match fp? with
    | none => none
    | some fp =>
      let scale : Nat := 10 ^ fp.length
      let mag : ℚ := mkRat (digitsToNat ip * scale + digitsToNat fp) scale
      some (.val (if neg then -mag else mag))

/-- A near-Earth object (`models.NearEarthObject`) after construction.  The
`approaches` attribute is tracked separately (see `finalNeoApproaches`),
because the database constructor mutates it and the back-references stored in
close approaches would otherwise be cyclic. -/
structure NearEarthObject where
  designation : String
  name : Option String
  diameter : PyFloat
  hazardous : Bool
deriving DecidableEq

/-- The keyword bag accepted by `NearEarthObject.__init__` with the value
types its callers supply: strings from the CSV reader for `designation`,
`name` and `diameter`, a boolean for `hazardous`; `none` is an absent key. -/
structure NEOInfo where
  designation : Option String
  name : Option String
  diameter : Option String
  hazardous : Option Bool
deriving DecidableEq

/-- `NearEarthObject.__init__`: a missing designation defaults to `''`; a
missing or empty name becomes `None`; a missing or empty diameter becomes
`float('nan')`, otherwise `float(...)` is applied and may raise `ValueError`;
a missing hazardous flag defaults to `False`. -/
def NearEarthObject.make (info : NEOInfo) : Except String NearEarthObject :=
  let des := match info.designation with
    | none => ""
    | some s => s
  let name := match info.name with
    | none => none
    | some s => if s = "" then none else some s
  let haz := match info.hazardous with
    | none => false
    | some b => b
  match info.diameter with
  | none => .ok ⟨des, name, .nan, haz⟩
  | some s =>
    if s = "" then .ok ⟨des, name, .nan, haz⟩
    else match pyParseFloat s with
      | some x => .ok ⟨des, name, x, haz⟩
      | none => .error "ValueError"

/-- A close approach (`models.CloseApproach`). -/
structure CloseApproach where
  designation : String
  time : Option PyDateTime
  distance : PyFloat
  velocity : PyFloat
  neo : Option NearEarthObject
deriving DecidableEq

/-- The keyword bag accepted by `CloseApproach.__init__`: strings from the
JSON loader, `none` for an absent key.  `neoKw` stands for a `neo` keyword a
caller might pass; `**info` accepts it and the constructor never reads it. -/
structure CAInfo where
  designation : Option String
  time : Option String
  distance : Option String
  velocity : Option String
  neoKw : Option NearEarthObject
deriving DecidableEq

/-- Python's `float()` on an optional field with a default for a missing key. -/
def floatField (dflt : PyFloat) : Option String → Except String PyFloat
  | none => .ok dflt
  | some s =>
    match pyParseFloat s with
    | some x => .ok x
    | none => .error "ValueError"

/-- Parse of the `time` keyword: missing stays `None`, otherwise
`cd_to_datetime` is applied (raising on a malformed string). -/
def timeField : Option String → Except String (Option PyDateTime)
  | none => .ok none
  | some s =>
    match cd_to_datetime s with
    | some t => .ok (some t)
    | none => .error "ValueError"

/-- `CloseApproach.__init__`: missing designation defaults to `''`, missing
time to `None`, missing distance and velocity to `0.0`; the `neo`
back-reference is set to `None` unconditionally. -/
def CloseApproach.make (info : CAInfo) : Except String CloseApproach :=
  match timeField info.time with
  | .error e => .error e
  | .ok t =>
    match floatField (.val 0) info.distance with
    | .error e => .error e
    | .ok d =>
      match floatField (.val 0) info.velocity with
      | .error e => .error e
      | .ok v =>
        .ok ⟨(match info.designation with | none => "" | some s => s),
          t, d, v, none⟩

/-- `CloseApproach.time_str`: formats `self.time` through `datetime_to_str`;
`none` models the `AttributeError` raised when `time` is `None`. -/
def CloseApproach.time_str (a : CloseApproach) : Option String :=
  a.time.map datetime_to_str

/-- A cell handed to Python's `csv.writer`, which stringifies it on output. -/
inductive PyCell where
  | cstr : String → PyCell
  | cfloat : PyFloat → PyCell
  | cbool : Bool → PyCell
  | ctime : Option PyDateTime → PyCell
deriving DecidableEq

/-- The fixed header row of `write_to_csv`. -/
def csvFieldnames : List String :=
  ["datetime_utc", "distance_au", "velocity_km_s", "designation",
   "name", "diameter_km", "potentially_hazardous"]

/-- One data row of `write_to_csv` for a result `r`.  It reads `r.neo.name`
etc., so an unlinked approach raises `AttributeError`.  Two renderings the
source builds:
* `name`: `'' if r.neo.name in ('', None) else r.neo.name`;
* `diameter`: `'' if r.neo.diameter in ('', 'nan') else r.neo.diameter` — the
  diameter attribute is a float and a float never equals the strings `''` or
  `'nan'`, so the empty-string branch never fires and the raw float is kept;
* `hazardous`: `True if r.neo.hazardous in (1, 'Y', 'True', True) else False`,
  which for a boolean is the boolean itself;
* the first cell is the raw `r.time` datetime object, not `time_str`. -/
def csvRow (r : CloseApproach) : Except String (List PyCell) :=
  match r.neo with
  | none => .error "AttributeError"
  | some n =>
    let name : String := match n.name with
      | none => ""
      | some s => if s = "" then "" else s
    .ok [.ctime r.time, .cfloat r.distance, .cfloat r.velocity,
         .cstr r.designation, .cstr name, .cfloat n.diameter,
         .cbool n.hazardous]

/-- A Python `dict` as an insertion-ordered association list.  Assigning to an
existing key overwrites its value in place (the key keeps its position); a new
key is appended at the end — CPython's dict semantics. -/
def dictInsert {K V : Type} [DecidableEq K] : List (K × V) → K → V → List (K × V)
  | [], k, v => [(k, v)]
  | p :: rest, k, v =>
    if p.1 = k then (k, v) :: rest else p :: dictInsert rest k v

/-- Python's `d[k]`, as an option (`none` models `KeyError` / `not in`). -/
def dictLookup {K V : Type} [DecidableEq K] : List (K × V) → K → Option V
  | [], _ => none
  | p :: rest, k => if p.1 = k then some p.2 else dictLookup rest k

/-- Python's `k in d`. -/
def dictContains {K V : Type} [DecidableEq K] (d : List (K × V)) (k : K) : Bool :=
  (dictLookup d k).isSome

/-- The `self.neos_by_designation` dict: `for n in neos: d[n.designation] = n`
(last write wins on duplicate designations). -/
def buildByDesignation (neos : List NearEarthObject) :
    List (String × NearEarthObject) :=
  neos.foldl (fun d n => dictInsert d n.designation n) []

/-- The `self.neos_by_name` dict: `for n in neos: d[n.name] = n`.  The source
inserts every NEO, including those whose `name` attribute is `None` — the keys
are optional strings. -/
def buildByName (neos : List NearEarthObject) :
    List (Option String × NearEarthObject) :=
  neos.foldl (fun d n => dictInsert d n.name n) []

/-- One step of grouping: append the approach to its designation's group, or
start a new group (`self.approaches` construction). -/
def addToGroups : List (String × List CloseApproach) → CloseApproach →
    List (String × List CloseApproach)
  | [], a => [(a.designation, [a])]
  | p :: rest, a =>
    if p.1 = a.designation then (p.1, p.2 ++ [a]) :: rest
    else p :: addToGroups rest a

/-- The `self.approaches` dict: approaches grouped by designation, keys in
first-seen order, each group in input order. -/
def groupApproaches (approaches : List CloseApproach) :
    List (String × List CloseApproach) :=
  approaches.foldl addToGroups []

/-- Effect of the linking loop on one designation's group: when the
designation resolves to a NEO (in `neos_by_designation`), every approach of
the group gets its `neo` attribute set to that NEO; otherwise the group is
left alone. -/
def linkGroup (neos : List NearEarthObject) (d : String)
    (l : List CloseApproach) : List CloseApproach :=
  match dictLookup (buildByDesignation neos) d with
  | some n => l.map (fun a => { a with neo := some n })
  | none => l

/-- The linking loop: for each NEO in `neos_by_designation.values()` whose
designation has a group, every approach of the group gets its `neo` attribute
set to that NEO (the groups, being shared lists, see the mutation). -/
def linkedGroups (neos : List NearEarthObject) (approaches : List CloseApproach) :
    List (String × List CloseApproach) :=
  (groupApproaches approaches).map (fun p => (p.1, linkGroup neos p.1 p.2))

/-- The state of an `NEODatabase` after `__init__`. -/
structure NEODatabase where
  neos_by_designation : List (String × NearEarthObject)
  neos_by_name : List (Option String × NearEarthObject)
  approaches : List (String × List CloseApproach)
deriving DecidableEq

/-- `NEODatabase.__init__` on unlinked inputs. -/
def NEODatabase.mkDb (neos : List NearEarthObject)
    (approaches : List CloseApproach) : NEODatabase :=
  ⟨buildByDesignation neos, buildByName neos, linkedGroups neos approaches⟩

/-- The `.approaches` attribute of the `i`-th input NEO after construction,
assuming the inputs were unlinked (every input approach list empty, as the
constructor's precondition demands).  The linking loop iterates over
`neos_by_designation.values()`; an input NEO object is such a value exactly
when it is the last input NEO bearing its designation, and it is assigned its
designation's (linked) group when one exists.  All other input NEOs keep their
empty list. -/
def finalNeoApproaches (neos : List NearEarthObject)
    (approaches : List CloseApproach) (i : Nat) : List CloseApproach :=
  match neos[i]? with
  | none => []
  | some n =>
    if (neos.drop (i + 1)).all (fun m => m.designation ≠ n.designation) then
      (dictLookup (linkedGroups neos approaches) n.designation).getD []
    else []

/-- `NEODatabase.get_neo_by_designation`. -/
def NEODatabase.get_neo_by_designation (db : NEODatabase)
    (designation : String) : Option NearEarthObject :=
  dictLookup db.neos_by_designation designation

/-- `NEODatabase.get_neo_by_name`.  The argument may be a string or `None`
(the not-found return is also `none`; the source returns the dict entry when
the key — possibly `None` — is present). -/
def NEODatabase.get_neo_by_name (db : NEODatabase) (name : Option String) :
    Option NearEarthObject :=
  dictLookup db.neos_by_name name

/-- One entry of the `filters` mapping passed to `query`: the ten recognized
keys with the value types their producers supply, plus any unrecognized key. -/
inductive Filter where
  | date : PyDate → Filter
  | start_date : PyDate → Filter
  | end_date : PyDate → Filter
  | distance_min : PyFloat → Filter
  | distance_max : PyFloat → Filter
  | velocity_min : PyFloat → Filter
  | velocity_max : PyFloat → Filter
  | diameter_min : PyFloat → Filter
  | diameter_max : PyFloat → Filter
  | hazardous : Bool → Filter
  | unrecognized : String → Filter
deriving DecidableEq

/-- One arm of the `elif` chain in `query`: does this filter set `invalid` for
approach `a`?  Reading `a.time.date()` with a `None` time, or a NEO attribute
with a `None` back-reference, raises `AttributeError`. -/
def evalFilter (a : CloseApproach) : Filter → Except String Bool
  | .date v =>
    match a.time with
    | none => .error "AttributeError"
    | some t => .ok (decide (t.date ≠ v))
  | .start_date v =>
    match a.time with
    | none => .error "AttributeError"
    | some t => .ok (dateLt t.date v)
  | .end_date v =>
    match a.time with
    | none => .error "AttributeError"
    | some t => .ok (dateLt v t.date)
  | .distance_min v => .ok (pyLt a.distance v)
  | .distance_max v => .ok (pyGt a.distance v)
  | .velocity_min v => .ok (pyLt a.velocity v)
  | .velocity_max v => .ok (pyGt a.velocity v)
  | .diameter_min v =>
    match a.neo with
    | none => .error "AttributeError"
    | some n => .ok (n.diameter.isNaN || pyLt n.diameter v)
  | .diameter_max v =>
    match a.neo with
    | none => .error "AttributeError"
    | some n => .ok (n.diameter.isNaN || pyGt n.diameter v)
  | .hazardous v =>
    match a.neo with
    | none => .error "AttributeError"
    | some n => .ok (decide (n.hazardous ≠ v))
  | .unrecognized _ => .ok false

/-- The inner filter loop of `query`: runs the filters in mapping order and
stops at the first one that sets `invalid` (the `break`).  An empty mapping
leaves `invalid` false. -/
def runFilters (a : CloseApproach) : List Filter → Except String Bool
  | [] => .ok false
  | f :: fs =>
    match evalFilter a f with
    | .error e => .error e
    | .ok true => .ok true
    | .ok false => runFilters a fs

/-- Every close approach the database stores, in internal iteration order
(`for ls in self.approaches.values(): for a in ls`). -/
def storedApproaches (db : NEODatabase) : List CloseApproach :=
  db.approaches.flatMap (fun p => p.2)

/-- The body of `query` on a list of approaches: keep those for which no
filter sets `invalid`; a raised exception aborts the generator. -/
def queryList (fs : List Filter) : List CloseApproach →
    Except String (List CloseApproach)
  | [] => .ok []
  | a :: rest =>
    match runFilters a fs with
    | .error e => .error e
    | .ok inv =>
      match queryList fs rest with
      | .error e => .error e
      | .ok r => .ok (if inv then r else a :: r)

/-- `NEODatabase.query`, with the stream materialised as the list of emitted
approaches (or the exception the generator raises while being drained). -/
def NEODatabase.query (db : NEODatabase) (fs : List Filter) :
    Except String (List CloseApproach) :=
  queryList fs (storedApproaches db)

/-- The rejection table of the spec (§4.1), written from the spec's words: the
condition under which a filter REJECTS approach `a`.  For a null time or a
null NEO back-reference the spec leaves the source behaviour undefined and
recommends treating the filter as rejecting; that choice is adopted here (it
is unreachable under the hypotheses of the theorems that use this table).
Unrecognized filter names are ignored, i.e. never reject. -/
def specFilterRejects (a : CloseApproach) : Filter → Bool
  | .date v =>
    match a.time with
    | none => true
    | some t => decide (t.date ≠ v)
  | .start_date v =>
    match a.time with
    | none => true
    | some t => dateLt t.date v
  | .end_date v =>
    match a.time with
    | none => true
    | some t => dateLt v t.date
  | .distance_min v => pyLt a.distance v
  | .distance_max v => pyGt a.distance v
  | .velocity_min v => pyLt a.velocity v
  | .velocity_max v => pyGt a.velocity v
  | .diameter_min v =>
    match a.neo with
    | none => true
    | some n => n.diameter.isNaN || pyLt n.diameter v
  | .diameter_max v =>
    match a.neo with
    | none => true
    | some n => n.diameter.isNaN || pyGt n.diameter v
  | .hazardous v =>
    match a.neo with
    | none => true
    | some n => decide (n.hazardous ≠ v)
  | .unrecognized _ => false

/-- One step of collecting designations in first-seen order. -/
def seenStep (ks : List String) (a : CloseApproach) : List String :=
  if a.designation ∈ ks then ks else ks ++ [a.designation]

/-- Designations in order of first appearance among the input approaches (the
key order of the `self.approaches` dict), written from the spec's words. -/
def firstSeen (approaches : List CloseApproach) : List String :=
  approaches.foldl seenStep []

/-- The linking applied to a single approach: set its `neo` attribute to the
NEO its designation resolves to, if any. -/
def applyLink (neos : List NearEarthObject) (a : CloseApproach) : CloseApproach :=
  match dictLookup (buildByDesignation neos) a.designation with
  | some n => { a with neo := some n }
  | none => a

/-- Concrete data used to evaluate the embedding: the Eros scenario of the
spec (§8). -/
def exEros : NearEarthObject := ⟨"433", some "Eros", .val (mkRat 1684 100), false⟩

/-- The Eros close approach of the spec's concrete scenario, unlinked. -/
def exApEros : CloseApproach :=
  ⟨"433", some ⟨2020, 1, 1, 0, 0, 0⟩, .val (mkRat 15 100), .val 5, none⟩

/-- The database built from the Eros scenario. -/
def exDbEros : NEODatabase := .mkDb [exEros] [exApEros]

/-- The Eros approach as stored after linking. -/
def exApErosLinked : CloseApproach := { exApEros with neo := some exEros }

/-- A NEO whose `name` keyword was absent, so its `name` attribute is `None`. -/
def exNeoNoName : NearEarthObject := ⟨"433", none, .nan, false⟩

/-- A database over a single nameless NEO. -/
def exDbNoName : NEODatabase := .mkDb [exNeoNoName] []

/-- The NEO of the spec's round-trip example: designation `2020 AB`, empty
name (normalised to `None`), unknown diameter, not hazardous. -/
def exNeoAB : NearEarthObject := ⟨"2020 AB", none, .nan, false⟩

/-- A close approach whose `time` keyword was absent (`time` is `None`). -/
def exApNoTime : CloseApproach := ⟨"2020 AB", none, .val 1, .val 1, none⟩

/-- A database in which every stored approach is linked but one has no time. -/
def exDbNoTime : NEODatabase := .mkDb [exNeoAB] [exApNoTime]

/-- A second linked-but-timeless configuration, with different values. -/
def exNeoC : NearEarthObject := ⟨"733", some "Foo", .val 5, true⟩

/-- The timeless approach of the second configuration. -/
def exApNoTime2 : CloseApproach := ⟨"733", none, .val 2, .val 3, none⟩

/-- The database of the second configuration. -/
def exDbNoTime2 : NEODatabase := .mkDb [exNeoC] [exApNoTime2]

/-- An approach whose designation matches no NEO (stays unlinked). -/
def exApOrphan : CloseApproach :=
  ⟨"999", some ⟨2020, 1, 1, 0, 0, 0⟩, .val 1, .val 1, none⟩

/-- A database that stores only the orphan approach. -/
def exDbOrphan : NEODatabase := .mkDb [] [exApOrphan]

/-- The timestamp of the round-trip example, as parsed from the input format. -/
def exT0 : PyDateTime := ⟨2020, 1, 1, 12, 30, 0⟩

/-- The round-trip example approach of the spec (§8), linked to `exNeoAB`:
distance 0.148 au, velocity 13.2 km/s, diameter NaN, hazardous `False`. -/
def exApRound : CloseApproach :=
  ⟨"2020 AB", some exT0, .val (mkRat 148 1000), .val (mkRat 132 10),
    some exNeoAB⟩

theorem dictLookup_insert {K V : Type} [DecidableEq K] (d : List (K × V))
    (k k' : K) (v : V) :
    dictLookup (dictInsert d k v) k' = if k = k' then some v else dictLookup d k' := by
  induction d with
  | nil => simp [dictInsert, dictLookup]
  | cons p rest ih =>
    simp only [dictInsert]
    by_cases h1 : p.1 = k
    · by_cases h2 : k = k'
      · simp [dictLookup, h1, h2]
      · have h3 : ¬ p.1 = k' := by rw [h1]; exact h2
        simp [dictLookup, h1, h2, h3]
    · by_cases h2 : p.1 = k'
      · have h3 : ¬ k = k' := by rw [← h2]; intro hc; exact h1 hc.symm
        have h4 : ¬ k' = k := fun hc => h3 hc.symm
        simp [dictLookup, h2, h3, h4]
      · simp [dictLookup, h1, h2, ih]

theorem dictLookup_foldIns (neos : List NearEarthObject)
    (g : List (String × NearEarthObject)) (d : String) :
    dictLookup (neos.foldl (fun g n => dictInsert g n.designation n) g) d =
      (neos.reverse.find? (fun n => n.designation = d)).or (dictLookup g d) := by
  induction neos generalizing g with
  | nil => simp
  | cons n ns ih =>
    simp only [List.foldl_cons, List.reverse_cons, List.find?_append, ih,
      Option.or_assoc]
    congr 1
    rw [dictLookup_insert]
    by_cases h : n.designation = d <;> simp [List.find?, h, Option.or]

theorem dictLookup_buildByDesignation (neos : List NearEarthObject) (d : String) :
    dictLookup (buildByDesignation neos) d =
      neos.reverse.find? (fun n => n.designation = d) := by
  rw [buildByDesignation, dictLookup_foldIns]
  simp [dictLookup]

theorem buildByDesignation_isSome (neos : List NearEarthObject) (d : String) :
    (dictLookup (buildByDesignation neos) d).isSome = true ↔
      ∃ n ∈ neos, n.designation = d := by
  rw [dictLookup_buildByDesignation, List.find?_isSome]
  constructor
  · rintro ⟨n, hn, hd⟩
    exact ⟨n, List.mem_reverse.mp hn, by simpa using hd⟩
  · rintro ⟨n, hn, hd⟩
    exact ⟨n, List.mem_reverse.mpr hn, by simpa using hd⟩

theorem buildByDesignation_some (neos : List NearEarthObject) (d : String)
    (n : NearEarthObject) (h : dictLookup (buildByDesignation neos) d = some n) :
    n ∈ neos ∧ n.designation = d := by
  rw [dictLookup_buildByDesignation] at h
  exact ⟨List.mem_reverse.mp (List.mem_of_find?_eq_some h),
    by simpa using List.find?_some h⟩

theorem find?_eq_some_of_unique {α : Type} (l : List α) (p : α → Bool) (a : α)
    (hmem : a ∈ l) (hp : p a = true) (huniq : ∀ b ∈ l, p b = true → b = a) :
    l.find? p = some a := by
  induction l with
  | nil => cases hmem
  | cons c rest ih =>
    by_cases hc : p c = true
    · have hca : c = a := huniq c (List.mem_cons_self c rest) hc
      rw [List.find?_cons_of_pos _ hc, hca]
    · have ha : a ∈ rest := by
        rcases List.mem_cons.mp hmem with h | h
        · exact absurd (h ▸ hp) hc
        · exact h
      rw [List.find?_cons_of_neg _ (by simpa using hc)]
      exact ih ha (fun b hb hpb => huniq b (List.mem_cons_of_mem _ hb) hpb)

theorem pairwise_des_unique (neos : List NearEarthObject)
    (hdist : neos.Pairwise (fun m n => m.designation ≠ n.designation))
    (n m : NearEarthObject) (hn : n ∈ neos) (hm : m ∈ neos)
    (h : m.designation = n.designation) : m = n := by
  induction neos with
  | nil => cases hn
  | cons c rest ih =>
    rcases List.pairwise_cons.mp hdist with ⟨hc, hrest⟩
    rcases List.mem_cons.mp hn with h1 | h1 <;> rcases List.mem_cons.mp hm with h2 | h2
    · rw [h1, h2]
    · exact absurd (show c.designation = m.designation by rw [← h1]; exact h.symm)
        (hc m h2)
    · exact absurd (show c.designation = n.designation by rw [← h2]; exact h)
        (hc n h1)
    · exact ih hrest h1 h2

theorem buildByDesignation_pairwise (neos : List NearEarthObject)
    (hdist : neos.Pairwise (fun m n => m.designation ≠ n.designation))
    (n : NearEarthObject) (hn : n ∈ neos) :
    dictLookup (buildByDesignation neos) n.designation = some n := by
  rw [dictLookup_buildByDesignation]
  refine find?_eq_some_of_unique _ _ _ (List.mem_reverse.mpr hn) (by simp)
    (fun b hb hpb => ?_)
  exact pairwise_des_unique neos hdist n b hn (List.mem_reverse.mp hb)
    (by simpa using hpb)

theorem drop_all_ne_of_pairwise (neos : List NearEarthObject)
    (hdist : neos.Pairwise (fun m n => m.designation ≠ n.designation))
    (i : Nat) (n : NearEarthObject) (hi : neos[i]? = some n) :
    (neos.drop (i + 1)).all (fun m => m.designation ≠ n.designation) = true := by
  induction neos generalizing i with
  | nil => simp at hi
  | cons c rest ih =>
    rcases List.pairwise_cons.mp hdist with ⟨hc, hrest⟩
    match i with
    | 0 =>
      simp only [List.getElem?_cons_zero, Option.some.injEq] at hi
      subst hi
      simp only [List.drop_succ_cons, List.drop_zero, List.all_eq_true,
        decide_eq_true_eq]
      intro m hm
      exact fun he => (hc m hm) he.symm
    | i + 1 =>
      simp only [List.getElem?_cons_succ] at hi
      simpa using ih hrest i hi

theorem dictLookup_mapVal {V W : Type} (G : List (String × V))
    (h : String → V → W) (d : String) :
    dictLookup (G.map (fun p => (p.1, h p.1 p.2))) d =
      (dictLookup G d).map (h d) := by
  induction G with
  | nil => simp [dictLookup]
  | cons p rest ih =>
    by_cases hp : p.1 = d
    · subst hp
      simp [dictLookup]
    · simp [dictLookup, hp, ih]

theorem dictLookup_addToGroups (g : List (String × List CloseApproach))
    (a : CloseApproach) (d : String) :
    dictLookup (addToGroups g a) d =
      if a.designation = d then some ((dictLookup g d).getD [] ++ [a])
      else dictLookup g d := by
  induction g with
  | nil =>
    by_cases h : a.designation = d <;> simp [addToGroups, dictLookup, h]
  | cons p rest ih =>
    by_cases hp : p.1 = a.designation
    · by_cases hd : a.designation = d
      · have hpd : p.1 = d := hp.trans hd
        simp [addToGroups, dictLookup, hp, hd, hpd]
      · have hpd : ¬ p.1 = d := by rw [hp]; exact hd
        simp [addToGroups, dictLookup, hp, hd, hpd]
    · by_cases hpd : p.1 = d
      · have hd : ¬ a.designation = d := by
          rw [← hpd]; intro hc; exact hp hc.symm
        have hd2 : ¬ d = a.designation := fun hc => hd hc.symm
        simp [addToGroups, dictLookup, hp, hd, hpd, hd2]
      · by_cases hd : a.designation = d <;>
          simp [addToGroups, dictLookup, hp, hd, hpd, ih]

theorem dictLookup_foldGroups (as : List CloseApproach)
    (g : List (String × List CloseApproach)) (d : String) :
    dictLookup (as.foldl addToGroups g) d =
      if as.filter (fun a => a.designation = d) = [] then dictLookup g d
      else some ((dictLookup g d).getD [] ++
        as.filter (fun a => a.designation = d)) := by
  induction as generalizing g with
  | nil => simp
  | cons a as ih =>
    rw [List.foldl_cons, ih]
    by_cases hd : a.designation = d
    · rw [dictLookup_addToGroups]
      by_cases hf : as.filter (fun a => a.designation = d) = [] <;>
        simp [hd, hf, List.filter_cons, List.append_assoc]
    · rw [dictLookup_addToGroups]
      simp [hd, List.filter_cons]

theorem dictLookup_groupApproaches (as : List CloseApproach) (d : String) :
    dictLookup (groupApproaches as) d =
      if as.filter (fun a => a.designation = d) = [] then none
      else some (as.filter (fun a => a.designation = d)) := by
  rw [groupApproaches, dictLookup_foldGroups]
  simp [dictLookup]

theorem map_fst_addToGroups (g : List (String × List CloseApproach))
    (a : CloseApproach) :
    (addToGroups g a).map Prod.fst = seenStep (g.map Prod.fst) a := by
  induction g with
  | nil => simp [addToGroups, seenStep]
  | cons p rest ih =>
    by_cases hp : p.1 = a.designation
    · have hm : a.designation ∈ (p :: rest).map Prod.fst := by
        simp [hp.symm]
      simp [addToGroups, seenStep, hp, hm]
    · by_cases hm : a.designation ∈ rest.map Prod.fst
      · have hm2 : a.designation ∈ (p :: rest).map Prod.fst := by
          simp [hm]
        simp [addToGroups, seenStep, hp, hm, hm2, ih]
      · have hm2 : ¬ a.designation ∈ (p :: rest).map Prod.fst := by
          simp only [List.map_cons, List.mem_cons]
          rintro (h | h)
          · exact hp h.symm
          · exact hm h
        have hp2 : ¬ a.designation = p.1 := fun hc => hp hc.symm
        simp [addToGroups, seenStep, hp, hm, hm2, hp2, ih]

theorem map_fst_foldGroups (as : List CloseApproach)
    (g : List (String × List CloseApproach)) :
    (as.foldl addToGroups g).map Prod.fst = as.foldl seenStep (g.map Prod.fst) := by
  induction as generalizing g with
  | nil => rfl
  | cons a as ih => rw [List.foldl_cons, ih, map_fst_addToGroups, List.foldl_cons]

theorem map_fst_groupApproaches (as : List CloseApproach) :
    (groupApproaches as).map Prod.fst = firstSeen as := by
  rw [groupApproaches, map_fst_foldGroups]; rfl

theorem mem_foldl_seenStep (as : List CloseApproach) (ks : List String)
    (d : String) :
    d ∈ as.foldl seenStep ks ↔ d ∈ ks ∨ ∃ a ∈ as, a.designation = d := by
  induction as generalizing ks with
  | nil => simp
  | cons a as ih =>
    rw [List.foldl_cons, ih]
    by_cases hm : a.designation ∈ ks
    · have himp : a.designation = d → d ∈ ks := fun h => h ▸ hm
      simp only [seenStep, if_pos hm, List.mem_cons]
      constructor
      · rintro (h | ⟨b, hb, hd⟩)
        · exact Or.inl h
        · exact Or.inr ⟨b, Or.inr hb, hd⟩
      · rintro (h | ⟨b, hb, hd⟩)
        · exact Or.inl h
        · rcases hb with rfl | hb
          · exact Or.inl (himp hd)
          · exact Or.inr ⟨b, hb, hd⟩
    · simp only [seenStep, if_neg hm, List.mem_append, List.mem_singleton,
        List.mem_cons]
      constructor
      · rintro ((h | (h | h)) | ⟨b, hb, hd⟩)
        · exact Or.inl h
        · exact Or.inr ⟨a, Or.inl rfl, h.symm⟩
        · cases h
        · exact Or.inr ⟨b, Or.inr hb, hd⟩
      · rintro (h | ⟨b, hb, hd⟩)
        · exact Or.inl (Or.inl h)
        · rcases hb with rfl | hb
          · exact Or.inl (Or.inr (Or.inl hd.symm))
          · exact Or.inr ⟨b, hb, hd⟩

theorem mem_firstSeen (as : List CloseApproach) (d : String) :
    d ∈ firstSeen as ↔ ∃ a ∈ as, a.designation = d := by
  rw [firstSeen, mem_foldl_seenStep]; simp

theorem nodup_foldl_seenStep (as : List CloseApproach) (ks : List String)
    (h : ks.Nodup) : (as.foldl seenStep ks).Nodup := by
  induction as generalizing ks with
  | nil => exact h
  | cons a as ih =>
    rw [List.foldl_cons]
    refine ih _ ?_
    by_cases hm : a.designation ∈ ks
    · simpa [seenStep, hm] using h
    · rw [seenStep, if_neg hm, List.nodup_append]
      exact ⟨h, List.nodup_singleton _, by simpa using hm⟩

theorem nodup_firstSeen (as : List CloseApproach) : (firstSeen as).Nodup :=
  nodup_foldl_seenStep as [] List.nodup_nil

/-- Invariant of the grouping dict: every approach sits in the group keyed by
its own designation. -/
def GoodGroups (g : List (String × List CloseApproach)) : Prop :=
  ∀ p ∈ g, ∀ x ∈ p.2, x.designation = p.1

theorem goodGroups_addToGroups (g : List (String × List CloseApproach))
    (a : CloseApproach) (h : GoodGroups g) : GoodGroups (addToGroups g a) := by
  induction g with
  | nil =>
    intro p hp x hx
    simp only [addToGroups, List.mem_singleton] at hp
    subst hp
    simp only [List.mem_singleton] at hx
    rw [hx]
  | cons q rest ih =>
    intro p hp x hx
    by_cases hq : q.1 = a.designation
    · rw [addToGroups, if_pos hq] at hp
      rcases List.mem_cons.mp hp with h1 | h1
      · subst h1
        rcases List.mem_append.mp hx with h2 | h2
        · exact h q (List.mem_cons_self _ _) x h2
        · simp only [List.mem_singleton] at h2
          rw [h2, hq]
      · exact h p (List.mem_cons_of_mem _ h1) x hx
    · rw [addToGroups, if_neg hq] at hp
      rcases List.mem_cons.mp hp with h1 | h1
      · subst h1
        exact h p (List.mem_cons_self _ _) x hx
      · exact ih (fun r hr y hy => h r (List.mem_cons_of_mem _ hr) y hy) p h1 x hx

theorem goodGroups_fold (as : List CloseApproach)
    (g : List (String × List CloseApproach)) (h : GoodGroups g) :
    GoodGroups (as.foldl addToGroups g) := by
  induction as generalizing g with
  | nil => exact h
  | cons a as ih => exact ih _ (goodGroups_addToGroups g a h)

theorem goodGroups_groupApproaches (as : List CloseApproach) :
    GoodGroups (groupApproaches as) :=
  goodGroups_fold as [] (fun p hp => by cases hp)

theorem flatMap_congr_mem {α β : Type} (l : List α) (f g : α → List β)
    (h : ∀ x ∈ l, f x = g x) : l.flatMap f = l.flatMap g := by
  induction l with
  | nil => rfl
  | cons a as ih =>
    simp only [List.flatMap_cons]
    rw [h a (List.mem_cons_self _ _), ih (fun x hx => h x (List.mem_cons_of_mem _ hx))]

theorem flatten_assoc_eq {V : Type} (G : List (String × List V))
    (hnd : (G.map Prod.fst).Nodup) :
    G.flatMap Prod.snd =
      (G.map Prod.fst).flatMap (fun d => (dictLookup G d).getD []) := by
  induction G with
  | nil => rfl
  | cons p rest ih =>
    simp only [List.map_cons, List.nodup_cons] at hnd
    rcases hnd with ⟨hp, hrest⟩
    simp only [List.flatMap_cons, List.map_cons]
    have h1 : (dictLookup (p :: rest) p.1).getD [] = p.2 := by
      simp [dictLookup]
    have h2 : (rest.map Prod.fst).flatMap
        (fun d => (dictLookup (p :: rest) d).getD []) =
        (rest.map Prod.fst).flatMap (fun d => (dictLookup rest d).getD []) := by
      refine flatMap_congr_mem _ _ _ (fun d hd => ?_)
      have hne : ¬ p.1 = d := fun hc => hp (hc ▸ hd)
      simp [dictLookup, hne]
    rw [h1, h2, ih hrest]

theorem applyLink_designation (neos : List NearEarthObject) (a : CloseApproach) :
    (applyLink neos a).designation = a.designation := by
  rw [applyLink]
  cases dictLookup (buildByDesignation neos) a.designation <;> rfl

theorem linkGroup_eq_map_applyLink (neos : List NearEarthObject) (d : String)
    (l : List CloseApproach) (h : ∀ x ∈ l, x.designation = d) :
    linkGroup neos d l = l.map (applyLink neos) := by
  rw [linkGroup]
  cases hld : dictLookup (buildByDesignation neos) d with
  | none =>
    have : l.map (applyLink neos) = l.map id :=
      List.map_congr_left (fun x hx => by rw [applyLink, h x hx, hld]; rfl)
    rw [this, List.map_id]
  | some n =>
    exact List.map_congr_left (fun x hx => by rw [applyLink, h x hx, hld])

theorem storedApproaches_mkDb (neos : List NearEarthObject)
    (as : List CloseApproach) :
    storedApproaches (NEODatabase.mkDb neos as) =
      (firstSeen as).flatMap (fun d =>
        (as.filter (fun a => a.designation = d)).map (applyLink neos)) := by
  rw [storedApproaches, NEODatabase.mkDb, linkedGroups]
  have hkeys : ((groupApproaches as).map
      (fun p => (p.1, linkGroup neos p.1 p.2))).map Prod.fst = firstSeen as := by
    rw [List.map_map]
    exact map_fst_groupApproaches as
  have hnd : (((groupApproaches as).map
      (fun p => (p.1, linkGroup neos p.1 p.2))).map Prod.fst).Nodup := by
    rw [hkeys]; exact nodup_firstSeen as
  rw [show ((groupApproaches as).map
        (fun p => (p.1, linkGroup neos p.1 p.2))).flatMap Prod.snd =
      (((groupApproaches as).map (fun p => (p.1, linkGroup neos p.1 p.2))).map
        Prod.fst).flatMap (fun d => (dictLookup ((groupApproaches as).map
          (fun p => (p.1, linkGroup neos p.1 p.2))) d).getD []) from
    flatten_assoc_eq _ hnd]
  rw [hkeys]
  refine flatMap_congr_mem _ _ _ (fun d hd => ?_)
  rw [dictLookup_mapVal (groupApproaches as) (linkGroup neos) d,
    dictLookup_groupApproaches]
  rcases (mem_firstSeen as d).mp hd with ⟨a, ha, hda⟩
  have hmem : a ∈ as.filter (fun a => a.designation = d) :=
    List.mem_filter.mpr ⟨ha, by simp [hda]⟩
  have hne : ¬ as.filter (fun a => a.designation = d) = [] := by
    intro hc; rw [hc] at hmem; cases hmem
  rw [if_neg hne]
  exact linkGroup_eq_map_applyLink neos d _
    (fun x hx => by simpa using (List.mem_filter.mp hx).2)

theorem filter_map_applyLink (neos : List NearEarthObject)
    (as : List CloseApproach) (d : String) :
    (as.filter (fun a => a.designation = d)).map (applyLink neos) =
      (as.map (applyLink neos)).filter (fun x => x.designation = d) := by
  induction as with
  | nil => rfl
  | cons a as ih =>
    by_cases h : a.designation = d
    · have h2 : (applyLink neos a).designation = d := by
        rw [applyLink_designation]; exact h
      simp [List.filter_cons, h, h2, ih]
    · have h2 : ¬ (applyLink neos a).designation = d := by
        rw [applyLink_designation]; exact h
      simp [List.filter_cons, h, h2, ih]

theorem flatMap_filter_perm (keys : List String) (L : List CloseApproach)
    (hnd : keys.Nodup) (hcov : ∀ x ∈ L, x.designation ∈ keys) :
    (keys.flatMap (fun d => L.filter (fun x => x.designation = d))).Perm L := by
  induction keys generalizing L with
  | nil =>
    have : L = [] := List.eq_nil_iff_forall_not_mem.mpr
      (fun x hx => by cases hcov x hx)
    rw [this]; rfl
  | cons k ks ih =>
    rcases List.nodup_cons.mp hnd with ⟨hk, hks⟩
    rw [List.flatMap_cons]
    have hrest : ks.flatMap (fun d => L.filter (fun x => x.designation = d)) =
        ks.flatMap (fun d => (L.filter (fun x => !decide (x.designation = k))).filter
          (fun x => x.designation = d)) := by
      refine flatMap_congr_mem _ _ _ (fun d hd => ?_)
      rw [List.filter_filter]
      refine (List.filter_congr (fun x _ => ?_)).symm
      have hdk : ¬ d = k := fun hc => hk (hc ▸ hd)
      by_cases hx : x.designation = d
      · simp [hx, hdk]
      · simp [hx]
    have ihL := ih (L.filter (fun x => !decide (x.designation = k))) hks
      (fun x hx => by
        rcases List.mem_filter.mp hx with ⟨hxL, hxk⟩
        rcases List.mem_cons.mp (hcov x hxL) with h | h
        · simp only [Bool.not_eq_eq_eq_not, Bool.not_true, decide_eq_false_iff_not] at hxk
          exact absurd h hxk
        · exact h)
    rw [hrest]
    exact (List.Perm.append_left _ ihL).trans (List.filter_append_perm _ L)

theorem stored_perm_map_applyLink (neos : List NearEarthObject)
    (as : List CloseApproach) :
    (storedApproaches (NEODatabase.mkDb neos as)).Perm
      (as.map (applyLink neos)) := by
  rw [storedApproaches_mkDb]
  have : (firstSeen as).flatMap (fun d =>
      (as.filter (fun a => a.designation = d)).map (applyLink neos)) =
      (firstSeen as).flatMap (fun d =>
        (as.map (applyLink neos)).filter (fun x => x.designation = d)) :=
    flatMap_congr_mem _ _ _ (fun d _ => filter_map_applyLink neos as d)
  rw [this]
  refine flatMap_filter_perm _ _ (nodup_firstSeen as) (fun x hx => ?_)
  rcases List.mem_map.mp hx with ⟨a, ha, rfl⟩
  rw [applyLink_designation]
  exact (mem_firstSeen as a.designation).mpr ⟨a, ha, rfl⟩

theorem mem_linked_lookup_des (neos : List NearEarthObject)
    (as : List CloseApproach) (d : String) (x : CloseApproach)
    (hx : x ∈ (dictLookup (linkedGroups neos as) d).getD []) :
    x.designation = d := by
  rw [linkedGroups, dictLookup_mapVal, dictLookup_groupApproaches] at hx
  by_cases hf : as.filter (fun a => a.designation = d) = []
  · rw [if_pos hf] at hx
    cases hx
  · rw [if_neg hf] at hx
    simp only [Option.map_some', Option.getD_some] at hx
    rw [linkGroup] at hx
    cases hld : dictLookup (buildByDesignation neos) d with
    | none =>
      rw [hld] at hx
      simpa using (List.mem_filter.mp hx).2
    | some n =>
      rw [hld] at hx
      rcases List.mem_map.mp hx with ⟨a, ha, rfl⟩
      simpa using (List.mem_filter.mp ha).2

theorem queryList_nil_filters (l : List CloseApproach) :
    queryList [] l = .ok l := by
  induction l with
  | nil => rfl
  | cons a rest ih => simp [queryList, runFilters, ih]

theorem query_empty (db : NEODatabase) :
    db.query [] = .ok (storedApproaches db) :=
  queryList_nil_filters _

theorem evalFilter_ok (a : CloseApproach) (f : Filter)
    (h1 : a.neo.isSome = true) (h2 : a.time.isSome = true) :
    evalFilter a f = .ok (specFilterRejects a f) := by
  rcases Option.isSome_iff_exists.mp h1 with ⟨n, hn⟩
  rcases Option.isSome_iff_exists.mp h2 with ⟨t, ht⟩
  cases f <;> simp [evalFilter, specFilterRejects, hn, ht]

theorem runFilters_ok (a : CloseApproach) (fs : List Filter)
    (h1 : a.neo.isSome = true) (h2 : a.time.isSome = true) :
    runFilters a fs = .ok (!(fs.all (fun f => !specFilterRejects a f))) := by
  induction fs with
  | nil => rfl
  | cons f fs ih =>
    simp only [runFilters, evalFilter_ok a f h1 h2]
    cases hr : specFilterRejects a f
    · simp [List.all_cons, hr, ih]
    · simp [List.all_cons, hr]

theorem queryList_ok (fs : List Filter) (l : List CloseApproach)
    (h1 : ∀ a ∈ l, a.neo.isSome = true) (h2 : ∀ a ∈ l, a.time.isSome = true) :
    queryList fs l = .ok (l.filter
      (fun a => fs.all (fun f => !specFilterRejects a f))) := by
  induction l with
  | nil => rfl
  | cons a rest ih =>
    simp only [queryList,
      runFilters_ok a fs (h1 a (List.mem_cons_self _ _)) (h2 a (List.mem_cons_self _ _)),
      ih (fun b hb => h1 b (List.mem_cons_of_mem _ hb))
        (fun b hb => h2 b (List.mem_cons_of_mem _ hb))]
    cases hk : fs.all (fun f => !specFilterRejects a f) <;>
      simp [List.filter_cons, hk]

theorem final_approaches_eq (neos : List NearEarthObject)
    (as : List CloseApproach) (i : Nat) (n : NearEarthObject)
    (hdist : neos.Pairwise (fun m k => m.designation ≠ k.designation))
    (hi : neos[i]? = some n) :
    finalNeoApproaches neos as i =
      (as.filter (fun a => a.designation = n.designation)).map
        (fun a => { a with neo := some n }) := by
  have hmem : n ∈ neos := by
    rcases List.getElem?_eq_some.mp hi with ⟨hlt, rfl⟩
    exact List.getElem_mem hlt
  simp only [finalNeoApproaches, hi]
  rw [if_pos (drop_all_ne_of_pairwise neos hdist i n hi)]
  rw [linkedGroups, dictLookup_mapVal, dictLookup_groupApproaches]
  by_cases hf : as.filter (fun a => a.designation = n.designation) = []
  · rw [if_pos hf, hf]
    rfl
  · rw [if_neg hf]
    simp only [Option.map_some', Option.getD_some]
    rw [linkGroup, buildByDesignation_pairwise neos hdist n hmem]

/-- Claim C1: for unlinked inputs, after `NEODatabase` construction a stored
close approach has a non-null `neo` iff some input NEO bears its designation;
an approach matching no NEO keeps `neo` null, appears in no NEO's approach
list, and is still emitted by a query with no filters. -/
theorem link_iff_designation_matches (neos : List NearEarthObject)
    (as : List CloseApproach) (h0 : ∀ a ∈ as, a.neo = none) :
    ∀ x ∈ storedApproaches (NEODatabase.mkDb neos as),
      ((x.neo.isSome = true) ↔ ∃ n ∈ neos, n.designation = x.designation) ∧
      ((∀ n ∈ neos, n.designation ≠ x.designation) →
        x.neo = none ∧ (∀ i, x ∉ finalNeoApproaches neos as i) ∧
        ∃ l, (NEODatabase.mkDb neos as).query [] = .ok l ∧ x ∈ l) := by
  intro x hx
  have hx2 : x ∈ as.map (applyLink neos) :=
    (stored_perm_map_applyLink neos as).mem_iff.mp hx
  rcases List.mem_map.mp hx2 with ⟨a, ha, rfl⟩
  have hdes := applyLink_designation neos a
  constructor
  · cases hld : dictLookup (buildByDesignation neos) a.designation with
    | some n =>
      have hneo : (applyLink neos a).neo = some n := by
        rw [applyLink, hld]
      rw [hneo, hdes]
      rcases buildByDesignation_some neos a.designation n hld with ⟨hmem, hd2⟩
      exact ⟨fun _ => ⟨n, hmem, hd2⟩, fun _ => rfl⟩
    | none =>
      have hneo : (applyLink neos a).neo = none := by
        rw [applyLink, hld]
        exact h0 a ha
      rw [hneo, hdes]
      constructor
      · intro hc
        simp at hc
      · rintro ⟨n, hn, hd2⟩
        have hs := (buildByDesignation_isSome neos a.designation).mpr ⟨n, hn, hd2⟩
        rw [hld] at hs
        simp at hs
  · intro hno
    have hld : dictLookup (buildByDesignation neos) a.designation = none := by
      cases hld : dictLookup (buildByDesignation neos) a.designation with
      | none => rfl
      | some n =>
        rcases buildByDesignation_some neos a.designation n hld with ⟨hmem, hd2⟩
        exact absurd (show n.designation = (applyLink neos a).designation by
          rw [hdes]; exact hd2) (hno n hmem)
    have hneo : (applyLink neos a).neo = none := by
      rw [applyLink, hld]
      exact h0 a ha
    refine ⟨hneo, ?_,
      ⟨storedApproaches (NEODatabase.mkDb neos as), query_empty _, hx⟩⟩
    intro i hmem
    cases hni : neos[i]? with
    | none =>
      simp only [finalNeoApproaches, hni] at hmem
      cases hmem
    | some m =>
      simp only [finalNeoApproaches, hni] at hmem
      by_cases hcond : (neos.drop (i + 1)).all
          (fun k => k.designation ≠ m.designation) = true
      · rw [if_pos hcond] at hmem
        have hxm := mem_linked_lookup_des neos as m.designation _ hmem
        have hm_mem : m ∈ neos := by
          rcases List.getElem?_eq_some.mp hni with ⟨hlt, rfl⟩
          exact List.getElem_mem hlt
        exact (hno m hm_mem) hxm.symm
      · rw [if_neg hcond] at hmem
        cases hmem

/-- Instance of claim C1's theorem at the Eros scenario, hypotheses
discharged concretely. -/
theorem link_iff_designation_matches_inst :
    (∀ a ∈ [exApEros], a.neo = none) ∧
    ((exApErosLinked.neo.isSome = true) ↔
      ∃ n ∈ [exEros], n.designation = exApErosLinked.designation) :=
  ⟨by decide,
    (link_iff_designation_matches [exEros] [exApEros] (by decide)
      exApErosLinked (by decide)).1⟩

/-- Claim C2 (amended: the database must also give every stored approach a
non-null time, otherwise a date filter raises): when every stored approach is
linked and timed, `query` emits exactly the approaches that no supplied
filter rejects under the spec's rejection table, filters conjoined;
unrecognized filter names never reject and raise no error. -/
theorem query_filter_semantics (db : NEODatabase) (fs : List Filter)
    (h1 : ∀ a ∈ storedApproaches db, a.neo.isSome = true)
    (h2 : ∀ a ∈ storedApproaches db, a.time.isSome = true) :
    db.query fs = .ok ((storedApproaches db).filter
      (fun a => fs.all (fun f => !specFilterRejects a f))) :=
  queryList_ok fs _ h1 h2

/-- Claim C2, counterexample to the statement as frozen: a database whose
stored approaches all have a non-null `neo` on which `query` with the
recognized key `date` raises instead of emitting-iff-accepted (the stored
approach has a null time). -/
theorem query_crashes_on_null_time :
    (∀ a ∈ storedApproaches exDbNoTime, a.neo.isSome = true) ∧
    exDbNoTime.query [.date ⟨2020, 1, 1⟩] = .error "AttributeError" :=
  ⟨by decide, by decide⟩

/-- Instance of claim C2's amended theorem at the Eros scenario with a
`distance_max` filter. -/
theorem query_filter_semantics_inst :
    (∀ a ∈ storedApproaches exDbEros, a.neo.isSome = true) ∧
    exDbEros.query [.distance_max (.val (mkRat 2 10))] = .ok [exApErosLinked] :=
  ⟨by decide,
    (query_filter_semantics exDbEros [.distance_max (.val (mkRat 2 10))]
      (by decide) (by decide)).trans (by decide)⟩

/-- Claim C3: a filterless query emits every stored approach exactly once, in
the order obtained by grouping the input approaches by designation in
first-seen order (input order within a group); and the emitted list is a
permutation of the linked inputs, each exactly once.  (Each call of the
embedded query is a pure function application, so repeated calls trivially
yield the same sequence.) -/
theorem query_empty_yields_grouped_order (neos : List NearEarthObject)
    (as : List CloseApproach) :
    (NEODatabase.mkDb neos as).query [] =
      .ok ((firstSeen as).flatMap (fun d =>
        (as.filter (fun a => a.designation = d)).map (applyLink neos))) ∧
    ((firstSeen as).flatMap (fun d =>
      (as.filter (fun a => a.designation = d)).map (applyLink neos))).Perm
      (as.map (applyLink neos)) := by
  constructor
  · rw [query_empty, storedApproaches_mkDb]
  · rw [← storedApproaches_mkDb]
    exact stored_perm_map_applyLink neos as

/-- Claim C4: with pairwise-distinct designations, after construction the
`i`-th input NEO's `approaches` attribute holds exactly the input approaches
bearing its designation, in input order (each with its back-reference set by
the linking). -/
theorem neo_approaches_eq_matching (neos : List NearEarthObject)
    (as : List CloseApproach) (i : Nat) (n : NearEarthObject)
    (hdist : neos.Pairwise (fun m k => m.designation ≠ k.designation))
    (hi : neos[i]? = some n) :
    finalNeoApproaches neos as i =
      (as.filter (fun a => a.designation = n.designation)).map
        (fun a => { a with neo := some n }) :=
  final_approaches_eq neos as i n hdist hi

/-- Instance of claim C4's theorem at the Eros scenario. -/
theorem neo_approaches_eq_matching_inst :
    List.Pairwise (fun m k : NearEarthObject =>
      m.designation ≠ k.designation) [exEros] ∧
    finalNeoApproaches [exEros] [exApEros] 0 = [exApErosLinked] :=
  ⟨List.pairwise_singleton _ _,
    (neo_approaches_eq_matching [exEros] [exApEros] 0 exEros
      (List.pairwise_singleton _ _) rfl).trans (by decide)⟩

/-- Claim C5, exhibiting the code bug: the name index maps the key `None` to
a nameless NEO, and `get_neo_by_name(None)` returns that NEO instead of the
not-found signal the docstring and spec promise. -/
theorem name_index_contains_null_key :
    exNeoNoName.name = none ∧
    dictContains exDbNoName.neos_by_name none = true ∧
    exDbNoName.get_neo_by_name none = some exNeoNoName :=
  ⟨rfl, by decide, by decide⟩

/-- Claim C6, exhibiting the code bug: on the spec's round-trip example the
CSV row renders the null name as the empty string and hazardous as the
boolean `False`, but the NaN diameter cell is the raw float (which the csv
writer prints as `nan`), not the empty string the spec requires. -/
theorem csv_nan_diameter_not_blank :
    csvFieldnames = ["datetime_utc", "distance_au", "velocity_km_s",
      "designation", "name", "diameter_km", "potentially_hazardous"] ∧
    csvRow exApRound = .ok [.ctime (some exT0),
      .cfloat (.val (mkRat 148 1000)), .cfloat (.val (mkRat 132 10)),
      .cstr "2020 AB", .cstr "", .cfloat .nan, .cbool false] ∧
    PyCell.cfloat .nan ≠ PyCell.cstr "" :=
  ⟨rfl, by decide, by decide⟩

/-- Claim C7, exhibiting the code bug: for a timestamp parsed from the fixed
minute-precision input format, `write_to_csv` hands the raw datetime to the
csv writer, whose rendering carries a seconds field, while `time_str` (used
by the JSON writer) is minute-precise as the contract demands. -/
theorem csv_datetime_has_seconds :
    cd_to_datetime "2020-Jan-01 12:30" = some exT0 ∧
    csvRow exApRound = .ok [.ctime (some exT0),
      .cfloat (.val (mkRat 148 1000)), .cfloat (.val (mkRat 132 10)),
      .cstr "2020 AB", .cstr "", .cfloat .nan, .cbool false] ∧
    pyDatetimeStr exT0 = "2020-01-01 12:30:00" ∧
    CloseApproach.time_str exApRound = some "2020-01-01 12:30" :=
  ⟨by decide, by decide, by decide, by decide⟩

/-- Claim C8 (amended: only missing or empty fields degrade to defaults;
a present, non-empty, non-numeric diameter raises `ValueError`): when the
diameter keyword is absent or empty, construction succeeds with designation
defaulting to the empty string, missing or empty name to `None`, diameter to
NaN and missing hazardous to `False`. -/
theorem neo_ctor_defaults (info : NEOInfo)
    (hd : info.diameter = none ∨ info.diameter = some "") :
    NearEarthObject.make info = .ok ⟨info.designation.getD "",
      (match info.name with
       | none => none
       | some s => if s = "" then none else some s),
      .nan, info.hazardous.getD false⟩ := by
  obtain ⟨des, nm, dia, hz⟩ := info
  rcases hd with hd | hd
  · cases dia with
    | none =>
      cases des <;> cases hz <;> simp [NearEarthObject.make, Option.getD]
    | some s => simp at hd
  · cases dia with
    | none => simp at hd
    | some s =>
      simp only [Option.some.injEq] at hd
      subst hd
      cases des <;> cases hz <;> simp [NearEarthObject.make, Option.getD]

/-- Claim C8, counterexample to the statement as frozen: a malformed
(non-numeric, non-empty) diameter makes the constructor raise `ValueError`
rather than degrade to a default. -/
theorem neo_ctor_raises_on_malformed :
    NearEarthObject.make ⟨some "433", none, some "abc", some false⟩ =
      .error "ValueError" := by
  decide

/-- Instance of claim C8's amended theorem at a keyword bag with every key
absent. -/
theorem neo_ctor_defaults_inst :
    ((⟨none, none, none, none⟩ : NEOInfo).diameter = none ∨
      (⟨none, none, none, none⟩ : NEOInfo).diameter = some "") ∧
    NearEarthObject.make ⟨none, none, none, none⟩ =
      .ok ⟨"", none, .nan, false⟩ :=
  ⟨Or.inl rfl, neo_ctor_defaults ⟨none, none, none, none⟩ (Or.inl rfl)⟩

/-- Claim C9 (amended: error freedom additionally needs every stored approach
to carry a non-null time, since date filters read `a.time.date()`): on a
database whose stored approaches are all linked and timed, `query` never
raises for any filter list; and on a database holding an unlinked approach,
the `hazardous`, `diameter_min` and `diameter_max` filters each raise an
attribute-access error when the scan reaches it. -/
theorem query_error_freedom_and_reachability :
    (∀ (db : NEODatabase) (fs : List Filter),
      (∀ a ∈ storedApproaches db, a.neo.isSome = true) →
      (∀ a ∈ storedApproaches db, a.time.isSome = true) →
      ∃ l, db.query fs = .ok l) ∧
    exDbOrphan.query [.hazardous true] = .error "AttributeError" ∧
    exDbOrphan.query [.diameter_min (.val 1)] = .error "AttributeError" ∧
    exDbOrphan.query [.diameter_max (.val 1)] = .error "AttributeError" :=
  ⟨fun db fs h1 h2 => ⟨_, queryList_ok fs _ h1 h2⟩,
    by decide, by decide, by decide⟩

/-- Claim C9, counterexample to the statement as frozen: a fully linked
database on which `query` with the recognized key `date` still reaches an
error, because a stored approach has a null time. -/
theorem query_error_with_recognized_keys :
    (∀ a ∈ storedApproaches exDbNoTime2, a.neo.isSome = true) ∧
    exDbNoTime2.query [.date ⟨2021, 6, 1⟩] = .error "AttributeError" :=
  ⟨by decide, by decide⟩

/-- Instance of claim C9's amended theorem at the Eros database with a
`hazardous` filter. -/
theorem query_error_freedom_and_reachability_inst :
    ∃ l, exDbEros.query [.hazardous true] = .ok l :=
  query_error_freedom_and_reachability.1 exDbEros [.hazardous true]
    (by decide) (by decide)

/-- Claim C10: for every keyword bag the `CloseApproach` constructor defaults
a missing designation to the empty string, a missing time to `None`, missing
distance and velocity to `0.0`, and always initialises the `neo`
back-reference to `None`, whatever keywords were supplied. -/
theorem ca_ctor_defaults (info : CAInfo) (ca : CloseApproach)
    (h : CloseApproach.make info = .ok ca) :
    (info.designation = none → ca.designation = "") ∧
    (info.time = none → ca.time = none) ∧
    (info.distance = none → ca.distance = .val 0) ∧
    (info.velocity = none → ca.velocity = .val 0) ∧
    ca.neo = none := by
  rw [CloseApproach.make] at h
  cases hT : timeField info.time with
  | error e =>
    rw [hT] at h
    cases h
  | ok t =>
    rw [hT] at h
    cases hD : floatField (.val 0) info.distance with
    | error e =>
      rw [hD] at h
      cases h
    | ok dv =>
      rw [hD] at h
      cases hV : floatField (.val 0) info.velocity with
      | error e =>
        rw [hV] at h
        cases h
      | ok vv =>
        rw [hV] at h
        rw [Except.ok.injEq] at h
        subst h
        refine ⟨?_, ?_, ?_, ?_, rfl⟩
        · intro hdes
          simp [hdes]
        · intro htime
          rw [htime] at hT
          simp only [timeField] at hT
          rw [Except.ok.injEq] at hT
          exact hT.symm
        · intro hdist
          rw [hdist] at hD
          simp only [floatField] at hD
          rw [Except.ok.injEq] at hD
          exact hD.symm
        · intro hvel
          rw [hvel] at hV
          simp only [floatField] at hV
          rw [Except.ok.injEq] at hV
          exact hV.symm

/-- Instance of claim C10's theorem at a keyword bag with every key absent
except a supplied (and ignored) `neo` keyword. -/
theorem ca_ctor_defaults_inst :
    CloseApproach.make ⟨none, none, none, none, some exNeoAB⟩ =
      .ok ⟨"", none, .val 0, .val 0, none⟩ ∧
    (⟨"", none, .val 0, .val 0, none⟩ : CloseApproach).neo = none :=
  ⟨by decide,
    (ca_ctor_defaults ⟨none, none, none, none, some exNeoAB⟩
      ⟨"", none, .val 0, .val 0, none⟩ (by decide)).2.2.2.2⟩

end Neo
